import Mathlib

/-!
Shallow embedding of the d-scan clipboard pipeline (src/main.py) and proofs
of the specification claims about it.  Python strings are modelled as lists
of characters over the ASCII fragment relevant to the program; Python
`Counter`/`dict` values are modelled as insertion-ordered association lists.
-/

namespace DScanWatch

/-- Python strings, modelled as lists of characters. -/
abbrev Str := List Char

/-- The whitespace characters recognised by the model: the ASCII portion of
Python's `str.strip` / regex whitespace class. -/
def isPySpace (c : Char) : Bool :=
  c == ' ' || c == '\t' || c == '\n' || c == '\r' || c == '\x0b' || c == '\x0c'

/-- Python `str.strip()`: drop leading and trailing whitespace. -/
def pyStrip (s : Str) : Str :=
  ((s.dropWhile isPySpace).reverse.dropWhile isPySpace).reverse

/-- Python `s.rstrip("\r\n")` as used in `parse_dscan`. -/
def rstripCRLF (s : Str) : Str :=
  (s.reverse.dropWhile (fun c => c == '\r' || c == '\n')).reverse

/-- Python `str.lower()` (ASCII fragment). -/
def pyLower (s : Str) : Str := s.map Char.toLower

/-- Helper for `pySplitlines`: the line accumulated so far is kept in reverse
in `acc`; a terminator at the very end of the input does not open a new line. -/
def splitlinesGo : List Char → List Char → List (List Char)
  | [], acc => [acc.reverse]
  | '\r' :: '\n' :: rest, acc =>
    acc.reverse :: (if rest.isEmpty then [] else splitlinesGo rest [])
  | c :: rest, acc =>
    if c == '\r' || c == '\n' || c == '\x0b' || c == '\x0c' then
      acc.reverse :: (if rest.isEmpty then [] else splitlinesGo rest [])
    else
      splitlinesGo rest (c :: acc)

/-- Python `str.splitlines`: split at line terminators (the model covers
newline, carriage return, their pair, vertical tab and form feed). -/
def pySplitlines (s : Str) : List Str :=
  if s.isEmpty then [] else splitlinesGo s []

theorem length_dropWhile_le (p : Char → Bool) :
    ∀ l : List Char, (l.dropWhile p).length ≤ l.length := by
  intro l
  induction l with
  | nil => simp
  | cons c rest ih =>
    by_cases h : p c
    · simpa [List.dropWhile, h] using Nat.le_succ_of_le ih
    · simp [List.dropWhile, h]

/-- Split at maximal runs of two or more consecutive characters satisfying
`p`: the behaviour of `re.split` with the two-or-more-whitespace pattern of
src/main.py when `p` is the whitespace test.  The current field is
accumulated in reverse in `acc`; when the first argument is `true` the
scanner is inside a separator run and consumes the remaining `p`-characters
of the run. -/
def headSat (p : Char → Bool) : List Char → Bool
  | c :: _ => p c
  | [] => false

def runSplitGo (p : Char → Bool) : Bool → List Char → List Char → List (List Char)
  | _, [], acc => [acc.reverse]
  | true, c :: rest, acc =>
    if p c then runSplitGo p true rest acc
    else runSplitGo p false rest (c :: acc)
  | false, c :: rest, acc =>
    if p c && headSat p rest then
      acc.reverse :: runSplitGo p true rest []
    else
      runSplitGo p false rest (c :: acc)

def runSplit (p : Char → Bool) (l : List Char) : List (List Char) :=
  runSplitGo p false l []

/-- Python `str.split(sep)` for a one-character separator. -/
def splitOnChar (sep : Char) : List Char → List (List Char)
  | [] => [[]]
  | c :: rest =>
    if c == sep then
      [] :: splitOnChar sep rest
    else
      match splitOnChar sep rest with
      | [] => [[c]]
      | t :: ts => (c :: t) :: ts

/-- src/main.py `split_columns`: split at tabs when the line contains a tab,
otherwise at runs of two or more consecutive whitespace characters; every
resulting column is stripped. -/
def split_columns (line : Str) : List Str :=
  if line.contains '\t' then (splitOnChar '\t' line).map pyStrip
  else (runSplit isPySpace line).map pyStrip

/-- src/main.py row dictionary: one parsed line of a report. -/
structure Row where
  id : Str
  name : Str
  typ : Str
  dist : Str
  raw : Str
deriving DecidableEq

/-- Body of the per-line loop of src/main.py `parse_dscan`: column
assignment with defaults, plus the two-column fallback re-shift. -/
def parseLine (raw : Str) : Row :=
  let parts := split_columns raw
  let i := parts.getD 0 []
  let name := parts.getD 1 []
  let typ := parts.getD 2 []
  let dist := parts.getD 3 []
  if name = [] ∧ typ = [] ∧ 2 ≤ parts.length then
    { id := [], name := parts.getD 0 [], typ := parts.getD 1 [],
      dist := parts.getD 2 [], raw := raw }
  else
    { id := i, name := name, typ := typ, dist := dist, raw := raw }

/-- src/main.py `parse_dscan`: one `Row` per non-blank line, in order. -/
def parse_dscan (text : Str) : List Row :=
  (pySplitlines text).filterMap fun ln =>
    let raw := rstripCRLF ln
    if pyStrip raw = [] then none else some (parseLine raw)

/-- A Python `Counter` in insertion order: key/count pairs, new keys are
appended at the end. -/
abbrev Counter := List (Str × Nat)

/-- `Counter.get(k, 0)` / `counter[k]` read access. -/
def cGet (m : Counter) (k : Str) : Nat :=
  match m with
  | [] => 0
  | p :: rest => if p.1 = k then p.2 else cGet rest k

/-- `counter[k] += 1`. -/
def cInc (m : Counter) (k : Str) : Counter :=
  match m with
  | [] => [(k, 1)]
  | p :: rest => if p.1 = k then (p.1, p.2 + 1) :: rest else p :: cInc rest k

/-- `counter.keys()` in insertion order. -/
def cKeys (m : Counter) : List Str := m.map Prod.fst

/-- The in-memory ship index: lower-cased type name to group name. -/
abbrev Catalog := List (Str × Str)

/-- `dict` read access returning an optional value. -/
def alistGet? (m : Catalog) (k : Str) : Option Str :=
  match m with
  | [] => none
  | p :: rest => if p.1 = k then some p.2 else alistGet? rest k

/-- `dict.get(k, dflt)`. -/
def alistGetD (m : Catalog) (k : Str) (dflt : Str) : Str :=
  (alistGet? m k).getD dflt

def unknownS : Str := "Unknown".data

/-- The four aggregates produced by src/main.py `analyze_rows`. -/
structure Analysis where
  by_group : Counter
  by_type : Counter
  matched : Nat
  total : Nat
deriving DecidableEq

/-- The loop state of `analyze_rows` (`total` is fixed before the loop). -/
structure AnalyzerAcc where
  by_group : Counter
  by_type : Counter
  matched : Nat
deriving DecidableEq

/-- One iteration of the loop in src/main.py `analyze_rows`. -/
def analyzeStep (cat : Catalog) (acc : AnalyzerAcc) (r : Row) : AnalyzerAcc :=
  let typ := pyStrip r.typ
  if typ = [] then
    { acc with by_type := cInc acc.by_type unknownS,
               by_group := cInc acc.by_group unknownS }
  else
    { by_group := cInc acc.by_group (alistGetD cat (pyLower typ) unknownS),
      by_type := cInc acc.by_type typ,
      matched := acc.matched + 1 }

/-- src/main.py `analyze_rows`. -/
def analyze_rows (rows : List Row) (cat : Catalog) : Analysis :=
  let acc := rows.foldl (analyzeStep cat) ⟨[], [], 0⟩
  ⟨acc.by_group, acc.by_type, acc.matched, rows.length⟩

def MIN_LINES_FOR_VALIDATION : Nat := 3

/-- Word characters of the regex word-boundary test (ASCII fragment). -/
def isWordChar (c : Char) : Bool := c.isAlphanum || c == '_'

/-- The word-boundary test after the digit run: end of string, or a
non-word character next. -/
def boundaryOk : Str → Bool
  | [] => true
  | c :: _ => !(isWordChar c)

/-- Digits, one or more, followed by a word boundary, at the start of `t`. -/
def idCheck (t : Str) : Bool :=
  match t with
  | [] => false
  | c :: _ => c.isDigit && boundaryOk (t.dropWhile Char.isDigit)

/-- The anchored match of src/main.py `ID_LINE_RE`: optional leading
whitespace, then one or more digits, then a word boundary. -/
def idLineMatch (ln : Str) : Bool := idCheck (ln.dropWhile isPySpace)

/-- The non-blank lines of the input. -/
def nonblankLines (text : Str) : List Str :=
  (pySplitlines text).filter fun ln => !(pyStrip ln).isEmpty

/-- src/main.py `looks_like_dscan`.  CPython compares the two fractions with
float division against the literals 0.7 and 0.6; for every divisor below
10^15 the rounded quotient compares to the rounded literal exactly as the
exact rational does, so the comparisons are embedded as exact integer
inequalities. -/
def looks_like_dscan (text : Str) (_cat : Catalog) : Bool :=
  let lines := nonblankLines text
  if lines.length < MIN_LINES_FOR_VALIDATION then false
  else
    let id_lines := lines.filter idLineMatch
    if 10 * id_lines.length < 7 * lines.length then false
    else
      let has_type := (id_lines.filter fun ln =>
        !(pyStrip ((split_columns ln).getD 2 [])).isEmpty).length
      if 10 * has_type < 6 * id_lines.length then false
      else true

/-- The sort key of src/main.py `fmt_with_delta`: ascending in the pair of
negated current count and name, i.e. descending count with lexicographic
name tie-break.  The order on names is the lexicographic order on character
code points, as in Python. -/
def fmtLe (curr : Counter) (a b : Str) : Prop :=
  cGet curr b < cGet curr a ∨ (cGet curr a = cGet curr b ∧ a ≤ b)

instance (curr : Counter) : DecidableRel (fmtLe curr) := fun a b => by
  unfold fmtLe
  infer_instance

instance (curr : Counter) : IsTotal Str (fmtLe curr) := by
  constructor
  intro a b
  rcases Nat.lt_trichotomy (cGet curr a) (cGet curr b) with h | h | h
  · exact Or.inr (Or.inl h)
  · rcases le_total a b with hab | hba
    · exact Or.inl (Or.inr ⟨h, hab⟩)
    · exact Or.inr (Or.inr ⟨h.symm, hba⟩)
  · exact Or.inl (Or.inl h)

instance (curr : Counter) : IsTrans Str (fmtLe curr) := by
  constructor
  intro a b c hab hbc
  rcases hab with hab | ⟨hab, hab2⟩
  · rcases hbc with hbc | ⟨hbc, _⟩
    · exact Or.inl (hbc.trans hab)
    · exact Or.inl (hbc ▸ hab)
  · rcases hbc with hbc | ⟨hbc, hbc2⟩
    · exact Or.inl (hab ▸ hbc)
    · exact Or.inr ⟨hab.trans hbc, hab2.trans hbc2⟩

/-- The union of current and previous category names (src/main.py line 124).
The Python source collects the names in a `set`; the sort key below is
injective on distinct names, so the sorted result does not depend on the
iteration order of the set, and the model represents the set by the
duplicate-free list of names. -/
def allNames (curr : Counter) (prev : Option Counter) : List Str :=
  (cKeys curr ++ (match prev with | some m => cKeys m | none => [])).dedup

/-- The sorted category names of src/main.py `fmt_with_delta` (line 125). -/
def rowsSorted (curr : Counter) (prev : Option Counter) : List Str :=
  List.insertionSort (fmtLe curr) (allNames curr prev)

/-- Python truthiness of the `prev` argument: present and non-empty. -/
def hasPrevB : Option Counter → Bool
  | none => false
  | some m => !m.isEmpty

def natStr (n : Nat) : Str := (toString n).data

def intStr (i : Int) : Str := (toString i).data

/-- One category row of src/main.py `fmt_with_delta` (lines 128-137). -/
def renderRow (curr : Counter) (prev : Option Counter) (n : Str) : Str :=
  let c := cGet curr n
  let p : Nat := if hasPrevB prev then cGet (prev.getD []) n else 0
  let delta : Int := (c : Int) - (p : Int)
  if hasPrevB prev then
    if 0 < delta then
      n ++ (": ").data ++ natStr c ++ (" (+").data ++ intStr delta ++ (")").data
    else if delta < 0 then
      n ++ (": ").data ++ natStr c ++ (" (").data ++ intStr delta ++ (")").data
    else
      n ++ (": ").data ++ natStr c
  else
    n ++ (": ").data ++ natStr c

/-- The list of rendered category rows of src/main.py `fmt_with_delta`. -/
def fmtRows (curr : Counter) (prev : Option Counter) : List Str :=
  (rowsSorted curr prev).map (renderRow curr prev)

/-- Python `"\n".join`. -/
def joinLines : List Str → Str
  | [] => []
  | [x] => x
  | x :: rest => x ++ '\n' :: joinLines rest

/-- src/main.py `fmt_with_delta`: the full rendered text block. -/
def fmt_with_delta (title : Str) (curr : Counter) (matched total : Nat)
    (prev : Option Counter) (stamp : Str) (idx : Nat) (total_snaps : Nat)
    (system_name : Option Str) : Str :=
  let rows0 := fmtRows curr prev
  let rows := if rows0.isEmpty then [("(no ships matched)").data] else rows0
  let head := [("=== ").data ++ title ++ (" ===").data,
               ("Lines matched: ").data ++ natStr matched ++ ("/").data ++ natStr total,
               []]
  let foot :=
    (match system_name with
     | some s => [("System: ").data ++ s]
     | none => []) ++
    [("EVE Time: ").data ++ stamp,
     ("Snapshot: ").data ++ natStr (idx + 1) ++ ("/").data ++ natStr total_snaps]
  joinLines (head ++ rows ++ [[]] ++ foot)

def STRUCTURE_TYPES : List Str :=
  ["Keepstar", "Fortizar", "Astrahus", "Azbel", "Sotiyo", "Raitaru", "Athanor",
   "Tatara", "Ihub", "TCU", "POS", "POS Tower", "Engineering Complex",
   "Refinery", "Citadel"].map String.data

/-- Does the first list start with the second one? -/
def listStartsWith : List Char → List Char → Bool
  | _, [] => true
  | [], _ :: _ => false
  | a :: as, b :: bs => a == b && listStartsWith as bs

/-- Python substring containment `needle in hay`. -/
def containsSub (hay needle : Str) : Bool :=
  match hay with
  | [] => needle.isEmpty
  | c :: rest => listStartsWith (c :: rest) needle || containsSub rest needle

/-- The part of a string before the first occurrence of `sep`
(Python `s.split(sep, 1)[0]`, the whole string when `sep` is absent). -/
def beforeFirst (sep : Str) : Str → Str
  | [] => []
  | c :: rest =>
    if listStartsWith (c :: rest) sep then [] else c :: beforeFirst sep rest

def isSystemChar (c : Char) : Bool :=
  (decide ('A' ≤ c) && decide (c ≤ 'Z')) || c.isDigit || c == '-'

/-- The anchored match of src/main.py `SYSTEM_TOKEN_RE`: two or more
characters, all upper-case letters, digits or hyphens. -/
def systemTokenMatch (t : Str) : Bool := 2 ≤ t.length && t.all isSystemChar

def sepDash : Str := (" - ").data

/-- The structure test of src/main.py `extract_system_from_rows`. -/
def isStructureTyp (typ : Str) : Bool :=
  STRUCTURE_TYPES.contains typ || containsSub typ ("Complex").data ||
    containsSub typ ("Refinery").data || containsSub typ ("Citadel").data

/-- src/main.py `extract_system_from_rows`. -/
def extract_system_from_rows : List Row → Option Str
  | [] => none
  | r :: rest =>
    let name := pyStrip r.name
    let typ := pyStrip r.typ
    if name ≠ [] ∧ typ ≠ [] ∧ isStructureTyp typ = true ∧
        containsSub name sepDash = true ∧
        systemTokenMatch (pyStrip (beforeFirst sepDash name)) = true then
      some (pyStrip (beforeFirst sepDash name))
    else
      extract_system_from_rows rest

/-- One stored snapshot (the dictionary built in `on_clipboard_changed`). -/
structure Snapshot where
  ts : Str
  by_group : Counter
  by_type : Counter
  matched : Nat
  total : Nat
  raw : Str
  rows : List Row
  system : Option Str
deriving DecidableEq

/-- The pipeline state owned by the main window: the snapshot list and the
current view index (initially `-1`). -/
structure AppState where
  snaps : List Snapshot
  view_idx : Int
deriving DecidableEq

/-- Snapshot construction from validated text (src/main.py lines 489-498).
The capture timestamp is an input of the model. -/
def mkSnap (ts text : Str) (cat : Catalog) : Snapshot :=
  let rows := parse_dscan text
  let a := analyze_rows rows cat
  { ts := ts, by_group := a.by_group, by_type := a.by_type,
    matched := a.matched, total := a.total, raw := text, rows := rows,
    system := extract_system_from_rows rows }

/-- Duplicate-paste suppression and append (src/main.py lines 485 and
499-500): a no-op when the last stored snapshot has the same raw text,
otherwise append and point the view at the new last element. -/
def store_append (st : AppState) (snap : Snapshot) : AppState :=
  match st.snaps.getLast? with
  | some last =>
    if last.raw = snap.raw then st
    else { snaps := st.snaps ++ [snap], view_idx := (st.snaps.length : Int) }
  | none => { snaps := st.snaps ++ [snap], view_idx := (st.snaps.length : Int) }

/-- The state effect of src/main.py `Main.on_clipboard_changed`: gate on the
format validator (when enabled), on emptiness and on parsed rows, then build
a snapshot and run the duplicate-suppressed append.  Rendering is
display-only and the timestamp is an input. -/
def on_clipboard_changed (st : AppState) (cat : Catalog) (ignoreNonDscan : Bool)
    (ts : Str) (clip : Str) : AppState :=
  let text := pyStrip clip
  if ignoreNonDscan && !(looks_like_dscan text cat) then st
  else if text.isEmpty then st
  else if (parse_dscan text).isEmpty then st
  else store_append st (mkSnap ts text cat)

/-- src/main.py `Main.go_prev`. -/
def go_prev (st : AppState) : AppState :=
  if 0 < st.view_idx then { st with view_idx := st.view_idx - 1 } else st

/-- src/main.py `Main.go_next`. -/
def go_next (st : AppState) : AppState :=
  if st.view_idx < (st.snaps.length : Int) - 1 then
    { st with view_idx := st.view_idx + 1 }
  else st

/-- src/main.py `Main.reset_baseline`: when the view index is in range,
insert a clone of the viewed snapshot directly before it and advance the
view index.  `Counter.copy` duplicates the count maps; in the pure model the
clone is the equal value. -/
def reset_baseline (st : AppState) : AppState :=
  if 0 ≤ st.view_idx ∧ st.view_idx < (st.snaps.length : Int) then
    match st.snaps[st.view_idx.toNat]? with
    | some s =>
      { snaps := st.snaps.take st.view_idx.toNat ++ s :: st.snaps.drop st.view_idx.toNat,
        view_idx := st.view_idx + 1 }
    | none => st
  else st

/-- Exact-mode catalog lookup (src/main.py line 99): lower-case the queried
type and look it up, with `"Unknown"` on a miss. -/
def lookup_exact (cat : Catalog) (typ : Str) : Str :=
  alistGetD cat (pyLower typ) unknownS

/-- Length-descending comparison on strings. -/
def lenGE (a b : Str) : Prop := b.length ≤ a.length

instance : DecidableRel lenGE := fun a b => by
  unfold lenGE
  infer_instance

instance : IsTotal Str lenGE := ⟨fun a b => Nat.le_total b.length a.length⟩

instance : IsTrans Str lenGE :=
  ⟨fun _ _ _ hab hbc => Nat.le_trans hbc hab⟩

/-- Modelled from the spec: the substring-mode catalog lookup of the second
pipeline variant, whose source file is not under src/.  Spec section 4.1:
iterate catalog keys sorted by descending length and return the group of the
first key found as a substring of the lower-cased input line; no match over
all keys yields no match. -/
def lookup_substring (cat : Catalog) (line : Str) : Option Str :=
  let keys := List.insertionSort lenGE (cat.map Prod.fst)
  (keys.find? fun k => containsSub (pyLower line) k).bind (alistGet? cat)

/-! ## Counter lemmas -/

theorem cGet_cInc_self (m : Counter) (k : Str) :
    cGet (cInc m k) k = cGet m k + 1 := by
  induction m with
  | nil => simp [cInc, cGet]
  | cons p rest ih =>
    by_cases h : p.1 = k
    · simp [cInc, cGet, h]
    · simp [cInc, cGet, h, ih]

theorem cGet_cInc_ne (m : Counter) (k k' : Str) (h : k' ≠ k) :
    cGet (cInc m k) k' = cGet m k' := by
  have hk : ¬ k = k' := fun hc => h hc.symm
  induction m with
  | nil => simp [cInc, cGet, hk]
  | cons p rest ih =>
    by_cases hp : p.1 = k
    · simp [cInc, cGet, hp, hk]
    · by_cases hq : p.1 = k'
      · simp [cInc, cGet, hp, hq, h]
      · simp [cInc, cGet, hp, hq, ih]

theorem cInc_ne_nil (m : Counter) (k : Str) : cInc m k ≠ [] := by
  cases m with
  | nil => simp [cInc]
  | cons p rest =>
    by_cases h : p.1 = k <;> simp [cInc, h]

/-! ## Analyzer lemmas (claim C1) -/

theorem analyze_rows_append (cat : Catalog) (rows : List Row) (r : Row) :
    analyze_rows (rows ++ [r]) cat =
      { by_group := (analyzeStep cat (rows.foldl (analyzeStep cat) ⟨[], [], 0⟩) r).by_group,
        by_type := (analyzeStep cat (rows.foldl (analyzeStep cat) ⟨[], [], 0⟩) r).by_type,
        matched := (analyzeStep cat (rows.foldl (analyzeStep cat) ⟨[], [], 0⟩) r).matched,
        total := rows.length + 1 } := by
  simp [analyze_rows, List.foldl_append]

/-- Claim C1, as stated, is refuted by a row whose `type` field carries
surrounding whitespace: the analyzer counts the row as matched but
increments `byType` at the trimmed key, not at the verbatim `type`. -/
theorem analyze_rows_untrimmed_key :
    (analyze_rows [⟨[], ("N").data, (" X ").data, [], []⟩] []).matched = 1 ∧
    cGet (analyze_rows [⟨[], ("N").data, (" X ").data, [], []⟩] []).by_type
      ((" X ").data) = 0 := by
  constructor <;> decide

/-- Claim C1 (amended): per-row increments of `analyze_rows`, with `byType`
keyed at the trimmed type and the group resolved from the lower-cased
trimmed type; `totalCount` is the number of rows. -/
theorem analyze_rows_spec (cat : Catalog) (rows : List Row) (r : Row) :
    (analyze_rows rows cat).total = rows.length ∧
    (pyStrip r.typ = [] →
      (analyze_rows (rows ++ [r]) cat).matched = (analyze_rows rows cat).matched ∧
      cGet (analyze_rows (rows ++ [r]) cat).by_type unknownS
        = cGet (analyze_rows rows cat).by_type unknownS + 1 ∧
      cGet (analyze_rows (rows ++ [r]) cat).by_group unknownS
        = cGet (analyze_rows rows cat).by_group unknownS + 1 ∧
      (∀ k, k ≠ unknownS →
        cGet (analyze_rows (rows ++ [r]) cat).by_type k
          = cGet (analyze_rows rows cat).by_type k) ∧
      (∀ k, k ≠ unknownS →
        cGet (analyze_rows (rows ++ [r]) cat).by_group k
          = cGet (analyze_rows rows cat).by_group k)) ∧
    (pyStrip r.typ ≠ [] →
      (analyze_rows (rows ++ [r]) cat).matched = (analyze_rows rows cat).matched + 1 ∧
      cGet (analyze_rows (rows ++ [r]) cat).by_type (pyStrip r.typ)
        = cGet (analyze_rows rows cat).by_type (pyStrip r.typ) + 1 ∧
      cGet (analyze_rows (rows ++ [r]) cat).by_group
          (alistGetD cat (pyLower (pyStrip r.typ)) unknownS)
        = cGet (analyze_rows rows cat).by_group
            (alistGetD cat (pyLower (pyStrip r.typ)) unknownS) + 1 ∧
      (∀ k, k ≠ pyStrip r.typ →
        cGet (analyze_rows (rows ++ [r]) cat).by_type k
          = cGet (analyze_rows rows cat).by_type k) ∧
      (∀ k, k ≠ alistGetD cat (pyLower (pyStrip r.typ)) unknownS →
        cGet (analyze_rows (rows ++ [r]) cat).by_group k
          = cGet (analyze_rows rows cat).by_group k)) := by
  refine ⟨rfl, ?_, ?_⟩
  · intro h
    have hstep : analyzeStep cat (rows.foldl (analyzeStep cat) ⟨[], [], 0⟩) r =
        { rows.foldl (analyzeStep cat) ⟨[], [], 0⟩ with
          by_type := cInc (rows.foldl (analyzeStep cat) ⟨[], [], 0⟩).by_type unknownS,
          by_group := cInc (rows.foldl (analyzeStep cat) ⟨[], [], 0⟩).by_group unknownS } := by
      simp [analyzeStep, h]
    rw [analyze_rows_append, hstep]
    exact ⟨rfl, cGet_cInc_self _ _, cGet_cInc_self _ _,
      fun k hk => cGet_cInc_ne _ _ _ hk, fun k hk => cGet_cInc_ne _ _ _ hk⟩
  · intro h
    have hstep : analyzeStep cat (rows.foldl (analyzeStep cat) ⟨[], [], 0⟩) r =
        { by_group := cInc (rows.foldl (analyzeStep cat) ⟨[], [], 0⟩).by_group
            (alistGetD cat (pyLower (pyStrip r.typ)) unknownS),
          by_type := cInc (rows.foldl (analyzeStep cat) ⟨[], [], 0⟩).by_type (pyStrip r.typ),
          matched := (rows.foldl (analyzeStep cat) ⟨[], [], 0⟩).matched + 1 } := by
      simp [analyzeStep, h]
    rw [analyze_rows_append, hstep]
    exact ⟨rfl, cGet_cInc_self _ _, cGet_cInc_self _ _,
      fun k hk => cGet_cInc_ne _ _ _ hk, fun k hk => cGet_cInc_ne _ _ _ hk⟩

theorem analyze_rows_spec_witness :
    (pyStrip (("Rifter").data) ≠ [] ∧
      (analyze_rows ([] ++ [⟨[], ("N").data, ("Rifter").data, [], []⟩])
          [((("rifter").data), ("Frigate").data)]).matched
        = (analyze_rows [] [((("rifter").data), ("Frigate").data)]).matched + 1) ∧
    (analyze_rows [] [((("rifter").data), ("Frigate").data)]).total = 0 := by
  have h := analyze_rows_spec [((("rifter").data), ("Frigate").data)] []
    ⟨[], ("N").data, ("Rifter").data, [], []⟩
  exact ⟨⟨by decide, (h.2.2 (by decide)).1⟩, h.1⟩

/-! ## Snapshot store lemmas (claims C4, C6, C7) -/

theorem store_append_dup (st : AppState) (snap last : Snapshot)
    (hlast : st.snaps.getLast? = some last) (hraw : last.raw = snap.raw) :
    store_append st snap = st := by
  unfold store_append
  rw [hlast]
  simp [hraw]

theorem store_append_fresh (st : AppState) (snap : Snapshot)
    (hne : ∀ last, st.snaps.getLast? = some last → last.raw ≠ snap.raw) :
    store_append st snap =
      { snaps := st.snaps ++ [snap], view_idx := (st.snaps.length : Int) } := by
  unfold store_append
  cases hlast : st.snaps.getLast? with
  | none => rfl
  | some last => simp [hne last hlast]

/-- Claim C4: duplicate-paste suppression.  Appending is a no-op exactly when
the store is non-empty and the new raw text equals the last stored raw text,
otherwise the snapshot is appended with the view index at the new last
element; processing the same clipboard text twice in a row leaves the state
of the first processing unchanged. -/
theorem store_append_spec (st : AppState) (snap : Snapshot) (cat : Catalog)
    (ignoreNonDscan : Bool) (ts1 ts2 clip : Str) :
    (∀ last, st.snaps.getLast? = some last → last.raw = snap.raw →
      store_append st snap = st) ∧
    ((∀ last, st.snaps.getLast? = some last → last.raw ≠ snap.raw) →
      store_append st snap =
        { snaps := st.snaps ++ [snap], view_idx := (st.snaps.length : Int) }) ∧
    on_clipboard_changed (on_clipboard_changed st cat ignoreNonDscan ts1 clip)
        cat ignoreNonDscan ts2 clip
      = on_clipboard_changed st cat ignoreNonDscan ts1 clip := by
  refine ⟨fun last hlast hraw => store_append_dup st snap last hlast hraw,
    fun hne => store_append_fresh st snap hne, ?_⟩
  by_cases h1 : (ignoreNonDscan && !(looks_like_dscan (pyStrip clip) cat)) = true
  · simp [on_clipboard_changed, h1]
  · by_cases h2 : (pyStrip clip).isEmpty = true
    · simp [on_clipboard_changed, h1, h2]
    · by_cases h3 : (parse_dscan (pyStrip clip)).isEmpty = true
      · simp [on_clipboard_changed, h1, h2, h3]
      · simp only [on_clipboard_changed, h1, h2, h3, if_false, Bool.false_eq_true]
        have hraw12 : (mkSnap ts1 (pyStrip clip) cat).raw
            = (mkSnap ts2 (pyStrip clip) cat).raw := rfl
        cases hlast : st.snaps.getLast? with
        | none =>
          rw [store_append_fresh st _ (fun last hl => by rw [hlast] at hl; cases hl)]
          exact store_append_dup _ _ (mkSnap ts1 (pyStrip clip) cat)
            (List.getLast?_concat _) hraw12
        | some last =>
          by_cases hraw : last.raw = (mkSnap ts1 (pyStrip clip) cat).raw
          · rw [store_append_dup st _ last hlast hraw]
            exact store_append_dup st _ last hlast (hraw12 ▸ hraw)
          · rw [store_append_fresh st _ (fun l hl => by
              rw [hlast] at hl
              cases hl
              exact hraw)]
            exact store_append_dup _ _ (mkSnap ts1 (pyStrip clip) cat)
              (List.getLast?_concat _) hraw12

theorem store_append_spec_witness :
    ((⟨[⟨[], [], [], 0, 0, ("x").data, [], none⟩], 0⟩ : AppState).snaps.getLast?
        = some ⟨[], [], [], 0, 0, ("x").data, [], none⟩ ∧
      (⟨[], [], [], 0, 0, ("x").data, [], none⟩ : Snapshot).raw
        = (⟨[], [], [], 0, 0, ("x").data, [], none⟩ : Snapshot).raw ∧
      store_append ⟨[⟨[], [], [], 0, 0, ("x").data, [], none⟩], 0⟩
          ⟨[], [], [], 0, 0, ("x").data, [], none⟩
        = ⟨[⟨[], [], [], 0, 0, ("x").data, [], none⟩], 0⟩) :=
  ⟨by decide, rfl,
    (store_append_spec ⟨[⟨[], [], [], 0, 0, ("x").data, [], none⟩], 0⟩
        ⟨[], [], [], 0, 0, ("x").data, [], none⟩ [] true [] [] []).1
      ⟨[], [], [], 0, 0, ("x").data, [], none⟩ (by decide) rfl⟩

/-- Claim C6: `reset_baseline` at a valid view index `i` grows the store by
one, puts a value equal to the original element at both `i` and `i + 1`,
shifts the later elements up by one, keeps the earlier elements, advances
the view index by one, and therefore still displays the same snapshot. -/
theorem reset_baseline_spec (st : AppState) (i : Nat)
    (hv : st.view_idx = (i : Int)) (hi : i < st.snaps.length) :
    (reset_baseline st).snaps.length = st.snaps.length + 1 ∧
    (reset_baseline st).snaps[i]? = st.snaps[i]? ∧
    (reset_baseline st).snaps[i + 1]? = st.snaps[i]? ∧
    (∀ j, j < i → (reset_baseline st).snaps[j]? = st.snaps[j]?) ∧
    (∀ j, i < j → j < st.snaps.length →
      (reset_baseline st).snaps[j + 1]? = st.snaps[j]?) ∧
    (reset_baseline st).view_idx = st.view_idx + 1 ∧
    (reset_baseline st).snaps[(reset_baseline st).view_idx.toNat]?
      = st.snaps[st.view_idx.toNat]? := by
  have hg : 0 ≤ st.view_idx ∧ st.view_idx < (st.snaps.length : Int) := by
    constructor
    · rw [hv]; exact Int.ofNat_nonneg i
    · rw [hv]; exact_mod_cast hi
  have htn : st.view_idx.toNat = i := by rw [hv]; exact Int.toNat_natCast i
  obtain ⟨s, hs⟩ : ∃ s, st.snaps[i]? = some s := by
    rw [List.getElem?_eq_getElem hi]; exact ⟨_, rfl⟩
  have hrb : reset_baseline st =
      { snaps := st.snaps.take i ++ s :: st.snaps.drop i, view_idx := st.view_idx + 1 } := by
    unfold reset_baseline
    rw [if_pos hg, htn, hs]
  have hlen_take : (st.snaps.take i).length = i := by
    rw [List.length_take]; omega
  have hmid : ∀ j, i ≤ j → j < st.snaps.length →
      (st.snaps.take i ++ s :: st.snaps.drop i)[j + 1]? = st.snaps[j]? := by
    intro j hij hjl
    rw [List.getElem?_append_right (by omega : (st.snaps.take i).length ≤ j + 1)]
    rw [hlen_take]
    obtain ⟨k, hk⟩ : ∃ k, j + 1 - i = k + 1 := ⟨j - i, by omega⟩
    rw [hk, List.getElem?_cons_succ, List.getElem?_drop]
    congr 1
    omega
  refine ⟨?_, ?_, ?_, ?_, ?_, ?_, ?_⟩
  · rw [hrb]
    simp only [List.length_append, List.length_cons, List.length_drop, hlen_take]
    omega
  · rw [hrb]
    rw [List.getElem?_append_right (le_of_eq hlen_take), hlen_take, Nat.sub_self,
      List.getElem?_cons_zero, hs]
  · rw [hrb]
    exact hmid i le_rfl hi
  · intro j hj
    rw [hrb]
    simp only [List.getElem?_append, hlen_take, if_pos hj]
    rw [List.getElem?_take, if_pos hj]
  · intro j hj hjl
    rw [hrb]
    exact hmid j (le_of_lt hj) hjl
  · rw [hrb]
  · rw [hrb]
    have hv1 : ((st.view_idx + 1).toNat) = i + 1 := by rw [hv]; omega
    show (st.snaps.take i ++ s :: st.snaps.drop i)[(st.view_idx + 1).toNat]?
      = st.snaps[st.view_idx.toNat]?
    rw [hv1, htn]
    exact hmid i le_rfl hi

theorem reset_baseline_spec_witness :
    ((⟨[⟨[], [], [], 0, 0, ("x").data, [], none⟩], 0⟩ : AppState).view_idx = ((0 : Nat) : Int) ∧
      0 < (⟨[⟨[], [], [], 0, 0, ("x").data, [], none⟩], 0⟩ : AppState).snaps.length) ∧
    (reset_baseline ⟨[⟨[], [], [], 0, 0, ("x").data, [], none⟩], 0⟩).snaps.length
      = (⟨[⟨[], [], [], 0, 0, ("x").data, [], none⟩], 0⟩ : AppState).snaps.length + 1 :=
  ⟨⟨rfl, by decide⟩,
    (reset_baseline_spec ⟨[⟨[], [], [], 0, 0, ("x").data, [], none⟩], 0⟩ 0 rfl
      (by decide)).1⟩

/-- The view-index invariant of the snapshot store. -/
abbrev viewInv (st : AppState) : Prop :=
  st.snaps ≠ [] → 0 ≤ st.view_idx ∧ st.view_idx < (st.snaps.length : Int)

/-- Claim C7: the view index stays in range under every operation, a fresh
append points it at the new last element, and navigation is clamped (no
wrap) at both boundaries. -/
theorem view_index_invariant (st : AppState) (snap : Snapshot) (cat : Catalog)
    (ignoreNonDscan : Bool) (ts clip : Str) :
    (viewInv st → viewInv (go_prev st)) ∧
    (viewInv st → viewInv (go_next st)) ∧
    (viewInv st → viewInv (reset_baseline st)) ∧
    (viewInv st → viewInv (on_clipboard_changed st cat ignoreNonDscan ts clip)) ∧
    ((∀ last, st.snaps.getLast? = some last → last.raw ≠ snap.raw) →
      (store_append st snap).view_idx
        = ((store_append st snap).snaps.length : Int) - 1 ∧
      viewInv (store_append st snap)) ∧
    (st.view_idx = 0 → go_prev st = st) ∧
    (st.view_idx = (st.snaps.length : Int) - 1 → go_next st = st) := by
  have hfresh : ∀ (st' : AppState),
      (∀ last, st'.snaps.getLast? = some last → last.raw ≠ snap.raw) →
      (store_append st' snap).view_idx
        = ((store_append st' snap).snaps.length : Int) - 1 ∧
      viewInv (store_append st' snap) := by
    intro st' hne
    rw [store_append_fresh st' snap hne]
    refine ⟨?_, fun _ => ⟨Int.ofNat_nonneg _, ?_⟩⟩
    · show (st'.snaps.length : Int) = ((st'.snaps ++ [snap]).length : Int) - 1
      simp [List.length_append]
    · show (st'.snaps.length : Int) < ((st'.snaps ++ [snap]).length : Int)
      simp [List.length_append]
  refine ⟨?_, ?_, ?_, ?_, hfresh st, ?_, ?_⟩
  · intro h
    unfold go_prev
    by_cases hc : 0 < st.view_idx
    · rw [if_pos hc]
      intro hne
      have hb := h hne
      constructor
      · show 0 ≤ st.view_idx - 1
        omega
      · show st.view_idx - 1 < (st.snaps.length : Int)
        have := hb.2
        omega
    · rw [if_neg hc]
      exact h
  · intro h
    unfold go_next
    by_cases hc : st.view_idx < (st.snaps.length : Int) - 1
    · rw [if_pos hc]
      intro hne
      have hb := h hne
      constructor
      · show 0 ≤ st.view_idx + 1
        have := hb.1
        omega
      · show st.view_idx + 1 < (st.snaps.length : Int)
        omega
    · rw [if_neg hc]
      exact h
  · intro h
    unfold reset_baseline
    by_cases hg : 0 ≤ st.view_idx ∧ st.view_idx < (st.snaps.length : Int)
    · rw [if_pos hg]
      cases hsome : st.snaps[st.view_idx.toNat]? with
      | none => exact h
      | some s =>
        intro _
        have hlen : (st.snaps.take st.view_idx.toNat ++ s :: st.snaps.drop st.view_idx.toNat).length
            = st.snaps.length + 1 := by
          simp only [List.length_append, List.length_cons, List.length_take, List.length_drop]
          omega
        constructor
        · show 0 ≤ st.view_idx + 1
          have := hg.1
          omega
        · show st.view_idx + 1 <
            ((st.snaps.take st.view_idx.toNat ++ s :: st.snaps.drop st.view_idx.toNat).length : Int)
          rw [hlen]
          have := hg.2
          push_cast
          omega
    · rw [if_neg hg]
      exact h
  · intro h
    unfold on_clipboard_changed
    by_cases h1 : (ignoreNonDscan && !(looks_like_dscan (pyStrip clip) cat)) = true
    · simpa [h1] using h
    · by_cases h2 : (pyStrip clip).isEmpty = true
      · simpa [h1, h2] using h
      · by_cases h3 : (parse_dscan (pyStrip clip)).isEmpty = true
        · simpa [h1, h2, h3] using h
        · simp only [h1, h2, h3, if_false, Bool.false_eq_true]
          unfold store_append
          cases hlast : st.snaps.getLast? with
          | none =>
            intro _
            constructor
            · exact Int.ofNat_nonneg _
            · simp [List.length_append]
          | some last =>
            by_cases hraw : last.raw = (mkSnap ts (pyStrip clip) cat).raw
            · simpa [hraw] using h
            · simp only [hraw, if_false]
              intro _
              constructor
              · exact Int.ofNat_nonneg _
              · simp [List.length_append]
  · intro h0
    unfold go_prev
    rw [h0]
    simp
  · intro h0
    unfold go_next
    rw [if_neg (by rw [h0]; exact lt_irrefl _)]

theorem view_index_invariant_witness :
    ((⟨[⟨[], [], [], 0, 0, ("x").data, [], none⟩], 0⟩ : AppState).view_idx = 0 ∧
      go_prev ⟨[⟨[], [], [], 0, 0, ("x").data, [], none⟩], 0⟩
        = ⟨[⟨[], [], [], 0, 0, ("x").data, [], none⟩], 0⟩) ∧
    (viewInv ⟨[⟨[], [], [], 0, 0, ("x").data, [], none⟩], 0⟩ ∧
      viewInv (go_next ⟨[⟨[], [], [], 0, 0, ("x").data, [], none⟩], 0⟩)) :=
  ⟨⟨rfl, (view_index_invariant ⟨[⟨[], [], [], 0, 0, ("x").data, [], none⟩], 0⟩
      ⟨[], [], [], 0, 0, ("x").data, [], none⟩ [] true [] []).2.2.2.2.2.1 rfl⟩,
    by decide,
    (view_index_invariant ⟨[⟨[], [], [], 0, 0, ("x").data, [], none⟩], 0⟩
      ⟨[], [], [], 0, 0, ("x").data, [], none⟩ [] true [] []).2.1 (by decide)⟩

/-! ## Report formatter: delta rendering (claim C2) -/

theorem analyzeStep_cases (cat : Catalog) (acc : AnalyzerAcc) (r : Row) :
    analyzeStep cat acc r =
      { acc with by_type := cInc acc.by_type unknownS,
                 by_group := cInc acc.by_group unknownS } ∨
    analyzeStep cat acc r =
      { by_group := cInc acc.by_group (alistGetD cat (pyLower (pyStrip r.typ)) unknownS),
        by_type := cInc acc.by_type (pyStrip r.typ),
        matched := acc.matched + 1 } := by
  by_cases h : pyStrip r.typ = []
  · exact Or.inl (by simp [analyzeStep, h])
  · exact Or.inr (by simp [analyzeStep, h])

theorem analyzeStep_by_group_ne (cat : Catalog) (acc : AnalyzerAcc) (r : Row) :
    (analyzeStep cat acc r).by_group ≠ [] := by
  rcases analyzeStep_cases cat acc r with e | e <;> rw [e] <;> exact cInc_ne_nil _ _

theorem analyzeStep_by_type_ne (cat : Catalog) (acc : AnalyzerAcc) (r : Row) :
    (analyzeStep cat acc r).by_type ≠ [] := by
  rcases analyzeStep_cases cat acc r with e | e <;> rw [e] <;> exact cInc_ne_nil _ _

theorem foldl_by_group_ne (cat : Catalog) :
    ∀ (rows : List Row) (acc : AnalyzerAcc), acc.by_group ≠ [] →
      (rows.foldl (analyzeStep cat) acc).by_group ≠ [] := by
  intro rows
  induction rows with
  | nil => intro acc h; exact h
  | cons r rest ih =>
    intro acc _
    exact ih (analyzeStep cat acc r) (analyzeStep_by_group_ne cat acc r)

theorem foldl_by_type_ne (cat : Catalog) :
    ∀ (rows : List Row) (acc : AnalyzerAcc), acc.by_type ≠ [] →
      (rows.foldl (analyzeStep cat) acc).by_type ≠ [] := by
  intro rows
  induction rows with
  | nil => intro acc h; exact h
  | cons r rest ih =>
    intro acc _
    exact ih (analyzeStep cat acc r) (analyzeStep_by_type_ne cat acc r)

/-- Claim C2: delta rendering.  Any snapshot produced from at least one row
has non-empty count maps (so a present previous snapshot is truthy in the
source's `if prev:` tests), and for a non-empty previous counter each
category row renders count and delta with exactly the claimed sign
convention; without a previous counter the row is bare.  The delta is the
current count minus the previous count, the latter taken as 0 for names
absent from the previous counter. -/
theorem fmt_delta_spec (curr m : Counter) (n : Str) (rows : List Row)
    (r : Row) (cat : Catalog) :
    ((analyze_rows (r :: rows) cat).by_group ≠ [] ∧
      (analyze_rows (r :: rows) cat).by_type ≠ []) ∧
    (m ≠ [] →
      (0 < (cGet curr n : Int) - (cGet m n : Int) →
        renderRow curr (some m) n
          = n ++ (": ").data ++ natStr (cGet curr n) ++ (" (+").data
              ++ intStr ((cGet curr n : Int) - (cGet m n : Int)) ++ (")").data) ∧
      ((cGet curr n : Int) - (cGet m n : Int) < 0 →
        renderRow curr (some m) n
          = n ++ (": ").data ++ natStr (cGet curr n) ++ (" (").data
              ++ intStr ((cGet curr n : Int) - (cGet m n : Int)) ++ (")").data) ∧
      ((cGet curr n : Int) - (cGet m n : Int) = 0 →
        renderRow curr (some m) n = n ++ (": ").data ++ natStr (cGet curr n)) ∧
      (n ∈ rowsSorted curr (some m) →
        renderRow curr (some m) n ∈ fmtRows curr (some m))) ∧
    (renderRow curr none n = n ++ (": ").data ++ natStr (cGet curr n)) := by
  refine ⟨⟨?_, ?_⟩, ?_, ?_⟩
  · exact foldl_by_group_ne cat rows _ (analyzeStep_by_group_ne cat _ r)
  · exact foldl_by_type_ne cat rows _ (analyzeStep_by_type_ne cat _ r)
  · intro hm
    have hp : hasPrevB (some m) = true := by
      simp [hasPrevB, List.isEmpty_iff, hm]
    refine ⟨?_, ?_, ?_, ?_⟩
    · intro hd
      simp only [renderRow, hp, if_true, Option.getD, if_pos hd]
    · intro hd
      have hd' : ¬ (0 < (cGet curr n : Int) - (cGet m n : Int)) := by omega
      simp only [renderRow, hp, if_true, Option.getD, if_neg hd', if_pos hd]
    · intro hd
      have hd1 : ¬ (0 < (cGet curr n : Int) - (cGet m n : Int)) := by omega
      have hd2 : ¬ ((cGet curr n : Int) - (cGet m n : Int) < 0) := by omega
      simp only [renderRow, hp, if_true, Option.getD, if_neg hd1, if_neg hd2]
    · intro hn
      exact List.mem_map_of_mem _ hn
  · simp only [renderRow, hasPrevB, Bool.false_eq_true, if_false]

theorem fmt_delta_spec_witness :
    (((analyze_rows ([⟨[], [], [], [], []⟩]) []).by_group ≠ []) ∧
      ([(("A").data, 1)] : Counter) ≠ [] ∧
      0 < (cGet [(("A").data, 3)] (("A").data) : Int)
          - (cGet [(("A").data, 1)] (("A").data) : Int)) ∧
    renderRow [(("A").data, 3)] (some [(("A").data, 1)]) (("A").data)
      = (("A").data) ++ (": ").data ++ natStr (cGet [(("A").data, 3)] (("A").data))
          ++ (" (+").data
          ++ intStr ((cGet [(("A").data, 3)] (("A").data) : Int)
              - (cGet [(("A").data, 1)] (("A").data) : Int)) ++ (")").data :=
  ⟨⟨(fmt_delta_spec [] [] [] [] ⟨[], [], [], [], []⟩ []).1.1, by decide, by decide⟩,
    ((fmt_delta_spec [(("A").data, 3)] [(("A").data, 1)] (("A").data) []
        ⟨[], [], [], [], []⟩ []).2.1 (by decide)).1 (by decide)⟩

/-! ## Report formatter: row ordering (claim C3) -/

theorem rowsSorted_sorted (curr : Counter) (prev : Option Counter) :
    List.Sorted (fmtLe curr) (rowsSorted curr prev) :=
  List.sorted_insertionSort (fmtLe curr) (allNames curr prev)

theorem rowsSorted_nodup (curr : Counter) (prev : Option Counter) :
    (rowsSorted curr prev).Nodup :=
  ((List.perm_insertionSort (fmtLe curr) (allNames curr prev)).symm).nodup
    (List.nodup_dedup _)

/-- Claim C3: the category rows are exactly the names of the current and
previous counters, a row with a strictly larger current count comes
strictly earlier, and equal-count rows are in ascending lexicographic name
order. -/
theorem fmt_sorting_spec (curr : Counter) (prev : Option Counter) :
    (∀ n, n ∈ rowsSorted curr prev ↔
      (n ∈ cKeys curr ∨ n ∈ (match prev with | some m => cKeys m | none => ([] : List Str)))) ∧
    (∀ i j (hi : i < (rowsSorted curr prev).length)
        (hj : j < (rowsSorted curr prev).length),
      cGet curr ((rowsSorted curr prev).get ⟨j, hj⟩)
          < cGet curr ((rowsSorted curr prev).get ⟨i, hi⟩) →
      i < j) ∧
    (∀ i j (hi : i < (rowsSorted curr prev).length)
        (hj : j < (rowsSorted curr prev).length),
      i < j →
      cGet curr ((rowsSorted curr prev).get ⟨i, hi⟩)
        = cGet curr ((rowsSorted curr prev).get ⟨j, hj⟩) →
      (rowsSorted curr prev).get ⟨i, hi⟩ < (rowsSorted curr prev).get ⟨j, hj⟩) := by
  have hpair := List.pairwise_iff_getElem.mp (rowsSorted_sorted curr prev)
  have hnd := rowsSorted_nodup curr prev
  refine ⟨?_, ?_, ?_⟩
  · intro n
    unfold rowsSorted allNames
    rw [List.mem_insertionSort, List.mem_dedup, List.mem_append]
  · intro i j hi hj hlt
    simp only [List.get_eq_getElem] at hlt
    rcases Nat.lt_trichotomy i j with h | h | h
    · exact h
    · subst h
      exact absurd hlt (lt_irrefl _)
    · rcases hpair j i hj hi h with hc | ⟨hc, _⟩
      · exact absurd (hlt.trans hc) (lt_irrefl _)
      · rw [hc] at hlt
        exact absurd hlt (lt_irrefl _)
  · intro i j hi hj hij heq
    simp only [List.get_eq_getElem]
    simp only [List.get_eq_getElem] at heq
    rcases hpair i j hi hj hij with hc | ⟨_, hle⟩
    · rw [heq] at hc
      exact absurd hc (lt_irrefl _)
    · have hne : (rowsSorted curr prev)[i] ≠ (rowsSorted curr prev)[j] := by
        intro he
        exact absurd (hnd.getElem_inj_iff.mp he) (Nat.ne_of_lt hij)
      exact lt_of_le_of_ne hle hne

theorem fmt_sorting_spec_witness :
    ((0 : Nat) < 1 ∧ (1 : Nat) < (rowsSorted [(("a").data, 1), (("b").data, 1)] none).length ∧
      cGet [(("a").data, 1), (("b").data, 1)]
          ((rowsSorted [(("a").data, 1), (("b").data, 1)] none).get ⟨0, by decide⟩)
        = cGet [(("a").data, 1), (("b").data, 1)]
            ((rowsSorted [(("a").data, 1), (("b").data, 1)] none).get ⟨1, by decide⟩)) ∧
    (rowsSorted [(("a").data, 1), (("b").data, 1)] none).get ⟨0, by decide⟩
      < (rowsSorted [(("a").data, 1), (("b").data, 1)] none).get ⟨1, by decide⟩ :=
  ⟨⟨by decide, by decide, by decide⟩,
    (fmt_sorting_spec [(("a").data, 1), (("b").data, 1)] none).2.2 0 1
      (by decide) (by decide) (by decide) (by decide)⟩

/-! ## Format validator (claims C5, C10) -/

/-- Right trim by whitespace; `pyStrip s` is `rstripWs` of the left trim. -/
def rstripWs (s : Str) : Str := (s.reverse.dropWhile isPySpace).reverse

theorem rstripWs_decompose (x : Str) :
    ∃ v, x = rstripWs x ++ v ∧ ∀ c ∈ v, isPySpace c = true := by
  refine ⟨(x.reverse.takeWhile isPySpace).reverse, ?_, ?_⟩
  · conv_lhs => rw [← List.reverse_reverse x,
      ← List.takeWhile_append_dropWhile isPySpace x.reverse]
    rw [List.reverse_append]
    rfl
  · intro c hc
    exact List.mem_takeWhile_imp (List.mem_reverse.mp hc)

theorem ws_not_digit (c : Char) (h : isPySpace c = true) : c.isDigit = false := by
  simp only [isPySpace, Bool.or_eq_true, beq_iff_eq] at h
  rcases h with ((((h | h) | h) | h) | h) | h <;> subst h <;> decide

theorem ws_not_word (c : Char) (h : isPySpace c = true) : isWordChar c = false := by
  simp only [isPySpace, Bool.or_eq_true, beq_iff_eq] at h
  rcases h with ((((h | h) | h) | h) | h) | h <;> subst h <;> decide

theorem idCheck_append_ws (u v : Str) (hv : ∀ c ∈ v, isPySpace c = true) :
    idCheck (u ++ v) = idCheck u := by
  cases u with
  | nil =>
    simp only [List.nil_append]
    cases v with
    | nil => rfl
    | cons c w =>
      have hc := hv c (by simp)
      simp [idCheck, ws_not_digit c hc]
  | cons c u' =>
    have hL : idCheck ((c :: u') ++ v)
        = (c.isDigit && boundaryOk (((c :: u') ++ v).dropWhile Char.isDigit)) := rfl
    have hR : idCheck (c :: u')
        = (c.isDigit && boundaryOk ((c :: u').dropWhile Char.isDigit)) := rfl
    rw [hL, hR]
    congr 1
    cases hdw : (c :: u').dropWhile Char.isDigit with
    | nil =>
      have hx : ((c :: u') ++ v).dropWhile Char.isDigit = v.dropWhile Char.isDigit := by
        rw [List.dropWhile_append, hdw]
        rfl
      rw [hx]
      cases v with
      | nil => rfl
      | cons c2 w =>
        have hc2 := ws_not_digit c2 (hv c2 (by simp))
        have hw2 := ws_not_word c2 (hv c2 (by simp))
        rw [List.dropWhile_cons, hc2]
        simp [boundaryOk, hw2]
    | cons d w =>
      have hne : ¬ ((c :: u').dropWhile Char.isDigit).isEmpty = true := by
        rw [hdw]
        simp
      have hx : ((c :: u') ++ v).dropWhile Char.isDigit = (d :: w) ++ v := by
        rw [List.dropWhile_append, if_neg hne, hdw]
      rw [hx]
      rfl

theorem idLineMatch_eq_strip (ln : Str) : idLineMatch ln = idCheck (pyStrip ln) := by
  obtain ⟨v, hx, hv⟩ := rstripWs_decompose (ln.dropWhile isPySpace)
  have h1 : pyStrip ln = rstripWs (ln.dropWhile isPySpace) := rfl
  show idCheck (ln.dropWhile isPySpace) = idCheck (pyStrip ln)
  conv_lhs => rw [hx]
  rw [idCheck_append_ws _ v hv, h1]

theorem lstrip_pyStrip (y : Str) :
    (pyStrip y).dropWhile isPySpace = pyStrip y := by
  show (rstripWs (y.dropWhile isPySpace)).dropWhile isPySpace
    = rstripWs (y.dropWhile isPySpace)
  obtain ⟨v, hx, _⟩ := rstripWs_decompose (y.dropWhile isPySpace)
  have ht : (y.dropWhile isPySpace).dropWhile isPySpace = y.dropWhile isPySpace :=
    List.dropWhile_idempotent isPySpace y
  cases hr : rstripWs (y.dropWhile isPySpace) with
  | nil => rfl
  | cons c w =>
    rw [hr] at hx
    rw [List.dropWhile_cons]
    by_cases hpc : isPySpace c = true
    · exfalso
      rw [hx, List.cons_append, List.dropWhile_cons, hpc, if_pos rfl] at ht
      have hlen := congrArg List.length ht
      have := length_dropWhile_le isPySpace (w ++ v)
      simp only [List.length_cons] at hlen
      omega
    · simp [hpc]

theorem pyStrip_idem (y : Str) : pyStrip (pyStrip y) = pyStrip y := by
  have h1 := lstrip_pyStrip y
  show rstripWs ((pyStrip y).dropWhile isPySpace) = pyStrip y
  rw [h1]
  show rstripWs (rstripWs (y.dropWhile isPySpace)) = rstripWs (y.dropWhile isPySpace)
  unfold rstripWs
  rw [List.reverse_reverse, List.dropWhile_idempotent]

theorem split_columns_stripped (ln : Str) :
    ∀ x ∈ split_columns ln, pyStrip x = x := by
  intro x hx
  unfold split_columns at hx
  by_cases h : ln.contains '\t' = true
  · rw [if_pos h] at hx
    obtain ⟨y, _, hy⟩ := List.mem_map.mp hx
    rw [← hy]
    exact pyStrip_idem y
  · rw [if_neg h] at hx
    obtain ⟨y, _, hy⟩ := List.mem_map.mp hx
    rw [← hy]
    exact pyStrip_idem y

theorem hasType_strip_eq (ln : Str) :
    (!(pyStrip ((split_columns ln).getD 2 [])).isEmpty)
      = (!((split_columns ln).getD 2 []).isEmpty) := by
  have : pyStrip ((split_columns ln).getD 2 []) = (split_columns ln).getD 2 [] := by
    rw [List.getD_eq_getElem?_getD]
    cases h : (split_columns ln)[2]? with
    | none => rfl
    | some e =>
      show pyStrip e = e
      exact split_columns_stripped ln e (List.getElem?_mem h)
  rw [this]

/-- Claim-side predicate: the trimmed line content starts with one or more
digits followed by a word boundary. -/
def startsWithNumericId (ln : Str) : Bool := idCheck (pyStrip ln)

/-- Claim-side predicate: the line, re-split by the parser's column rule,
has a non-empty third column. -/
def hasTypeCol (ln : Str) : Bool := !((split_columns ln).getD 2 []).isEmpty

theorem looks_like_dscan_closed (text : Str) (cat : Catalog) :
    looks_like_dscan text cat =
      (if (nonblankLines text).length < 3 then false
       else if 10 * ((nonblankLines text).filter startsWithNumericId).length
           < 7 * (nonblankLines text).length then false
       else if 10 * (((nonblankLines text).filter startsWithNumericId).filter hasTypeCol).length
           < 6 * ((nonblankLines text).filter startsWithNumericId).length then false
       else true) := by
  have hid : (nonblankLines text).filter idLineMatch
      = (nonblankLines text).filter startsWithNumericId :=
    List.filter_congr fun x _ => idLineMatch_eq_strip x
  have hht : ∀ L : List Str,
      L.filter (fun ln => !(pyStrip ((split_columns ln).getD 2 [])).isEmpty)
        = L.filter hasTypeCol :=
    fun L => List.filter_congr fun x _ => hasType_strip_eq x
  simp only [looks_like_dscan, MIN_LINES_FOR_VALIDATION, hid, hht]

/-- Claim C5: acceptance characterisation of the format validator: at least
3 non-blank lines, at least 7/10 of them leading with a numeric identifier,
and at least 6/10 of the identifier lines having a non-empty third column;
in particular 3 lines that all qualify are accepted, and at most 2 non-blank
lines are always rejected. -/
theorem looks_like_dscan_spec (text : Str) (cat : Catalog) :
    (looks_like_dscan text cat = true ↔
      (3 ≤ (nonblankLines text).length ∧
        7 * (nonblankLines text).length
          ≤ 10 * ((nonblankLines text).filter startsWithNumericId).length ∧
        6 * ((nonblankLines text).filter startsWithNumericId).length
          ≤ 10 * (((nonblankLines text).filter startsWithNumericId).filter hasTypeCol).length)) ∧
    ((nonblankLines text).length ≤ 2 → looks_like_dscan text cat = false) ∧
    ((nonblankLines text).length = 3 →
      (∀ ln ∈ nonblankLines text, startsWithNumericId ln = true ∧ hasTypeCol ln = true) →
      looks_like_dscan text cat = true) := by
  have hcl := looks_like_dscan_closed text cat
  have hiff : looks_like_dscan text cat = true ↔
      (3 ≤ (nonblankLines text).length ∧
        7 * (nonblankLines text).length
          ≤ 10 * ((nonblankLines text).filter startsWithNumericId).length ∧
        6 * ((nonblankLines text).filter startsWithNumericId).length
          ≤ 10 * (((nonblankLines text).filter startsWithNumericId).filter hasTypeCol).length) := by
    rw [hcl]
    split_ifs with h1 h2 h3
    · simp only [Bool.false_eq_true, false_iff]
      intro hcontra
      omega
    · simp only [Bool.false_eq_true, false_iff]
      intro hcontra
      omega
    · simp only [Bool.false_eq_true, false_iff]
      intro hcontra
      omega
    · simp only [true_iff]
      omega
  refine ⟨hiff, ?_, ?_⟩
  · intro hle
    cases hb : looks_like_dscan text cat with
    | false => rfl
    | true =>
      have := (hiff.mp hb).1
      omega
  · intro h3 hall
    have hidf : (nonblankLines text).filter startsWithNumericId = nonblankLines text :=
      List.filter_eq_self.mpr fun a ha => (hall a ha).1
    have hhtf : ((nonblankLines text).filter startsWithNumericId).filter hasTypeCol
        = nonblankLines text := by
      rw [hidf]
      exact List.filter_eq_self.mpr fun a ha => (hall a ha).2
    apply hiff.mpr
    rw [hhtf, hidf, h3]
    omega

theorem looks_like_dscan_spec_witness :
    ((nonblankLines (("ab").data)).length ≤ 2 ∧
      looks_like_dscan (("ab").data) [] = false) ∧
    looks_like_dscan
      (("1  a  T\n2  b  T\n3  c  T").data) [] = true :=
  ⟨⟨by decide, (looks_like_dscan_spec (("ab").data) []).2.1 (by decide)⟩,
    (looks_like_dscan_spec (("1  a  T\n2  b  T\n3  c  T").data) []).2.2
      (by decide) (by decide)⟩

/-- Claim C10: the validator is total (it returns one of the two booleans on
every input) and both fraction denominators are positive at the program
points where the divisions occur: the line count is positive whenever the
first fraction is computed, and the identifier-line count is positive
whenever the second fraction is computed. -/
theorem looks_like_dscan_total (text : Str) (cat : Catalog) :
    (looks_like_dscan text cat = true ∨ looks_like_dscan text cat = false) ∧
    (3 ≤ (nonblankLines text).length → 0 < (nonblankLines text).length) ∧
    (3 ≤ (nonblankLines text).length →
      7 * (nonblankLines text).length
        ≤ 10 * ((nonblankLines text).filter idLineMatch).length →
      0 < ((nonblankLines text).filter idLineMatch).length) := by
  refine ⟨?_, ?_, ?_⟩
  · cases h : looks_like_dscan text cat
    · exact Or.inr rfl
    · exact Or.inl rfl
  · intro h
    omega
  · intro h1 h2
    omega

theorem looks_like_dscan_total_witness :
    (3 ≤ (nonblankLines (("1  a  T\n2  b  T\n3  c  T").data)).length ∧
      7 * (nonblankLines (("1  a  T\n2  b  T\n3  c  T").data)).length
        ≤ 10 * ((nonblankLines (("1  a  T\n2  b  T\n3  c  T").data)).filter idLineMatch).length) ∧
    0 < ((nonblankLines (("1  a  T\n2  b  T\n3  c  T").data)).filter idLineMatch).length :=
  ⟨⟨by decide, by decide⟩,
    (looks_like_dscan_total (("1  a  T\n2  b  T\n3  c  T").data) []).2.2
      (by decide) (by decide)⟩

/-! ## Line parser (claim C8) -/

/-- The line-terminator characters of the `pySplitlines` model. -/
def isBreakB (c : Char) : Bool :=
  c == '\r' || c == '\n' || c == '\x0b' || c == '\x0c'

theorem splitlinesGo_no_break (s acc : List Char)
    (hacc : ∀ c ∈ acc, isBreakB c = false) :
    ∀ ln ∈ splitlinesGo s acc, ∀ c ∈ ln, isBreakB c = false := by
  revert hacc
  induction s, acc using splitlinesGo.induct with
  | case1 acc =>
    intro hacc ln hln c hc
    simp only [splitlinesGo, List.mem_singleton] at hln
    subst hln
    exact hacc c (List.mem_reverse.mp hc)
  | case2 rest acc ih =>
    intro hacc ln hln c hc
    simp only [splitlinesGo, List.mem_cons] at hln
    rcases hln with hln | hln
    · subst hln
      exact hacc c (List.mem_reverse.mp hc)
    · by_cases hre : rest.isEmpty = true
      · rw [if_pos hre] at hln
        cases hln
      · rw [if_neg hre] at hln
        exact ih (by intro x hx; cases hx) ln hln c hc
  | case3 c0 rest acc hne hcr ih =>
    intro hacc ln hln c hc
    simp only [splitlinesGo] at hln
    split at hln
    · rcases List.mem_cons.mp hln with hln | hln
      · subst hln
        exact hacc c (List.mem_reverse.mp hc)
      · by_cases hre : rest.isEmpty = true
        · rw [if_pos hre] at hln
          cases hln
        · rw [if_neg hre] at hln
          exact ih (by intro x hx; cases hx) ln hln c hc
    · rename_i hF
      exact absurd hcr hF
  | case4 c0 rest acc hne hcr ih =>
    intro hacc ln hln c hc
    simp only [splitlinesGo] at hln
    split at hln
    · rename_i hT
      exact absurd hT hcr
    · refine ih ?_ ln hln c hc
      intro x hx
      rcases List.mem_cons.mp hx with hx | hx
      · subst hx
        show (x == '\r' || x == '\n' || x == '\x0b' || x == '\x0c') = false
        exact Bool.eq_false_iff.mpr (by
          intro hB
          exact hcr hB)
      · exact hacc x hx

theorem pySplitlines_no_break (text : Str) :
    ∀ ln ∈ pySplitlines text, ∀ c ∈ ln, isBreakB c = false := by
  intro ln hln
  unfold pySplitlines at hln
  by_cases he : text.isEmpty = true
  · rw [if_pos he] at hln
    cases hln
  · rw [if_neg he] at hln
    exact splitlinesGo_no_break text [] (by intro x hx; cases hx) ln hln

theorem dropWhile_eq_self_of_all (p : Char → Bool) (l : List Char)
    (h : ∀ c ∈ l, p c = false) : l.dropWhile p = l := by
  cases l with
  | nil => rfl
  | cons c rest =>
    rw [List.dropWhile_cons, h c (List.mem_cons_self c rest)]
    simp

theorem rstripCRLF_of_no_break (ln : Str)
    (h : ∀ c ∈ ln, isBreakB c = false) : rstripCRLF ln = ln := by
  unfold rstripCRLF
  rw [dropWhile_eq_self_of_all _ _ ?_, List.reverse_reverse]
  intro c hc
  have hb := h c (List.mem_reverse.mp hc)
  have : isBreakB c = (c == '\r' || c == '\n' || c == '\x0b' || c == '\x0c') := rfl
  rw [this] at hb
  cases h1 : (c == '\r') <;> cases h2 : (c == '\n') <;> simp [h1, h2] at hb ⊢

theorem parseLine_raw (raw : Str) : (parseLine raw).raw = raw := by
  simp only [parseLine]
  split <;> rfl

theorem parse_dscan_rows (text : Str) :
    (parse_dscan text).map Row.raw
      = ((pySplitlines text).map rstripCRLF).filter (fun l => !(pyStrip l).isEmpty) := by
  unfold parse_dscan
  induction pySplitlines text with
  | nil => rfl
  | cons ln rest ih =>
    rw [List.filterMap_cons, List.map_cons, List.filter_cons]
    by_cases h : pyStrip (rstripCRLF ln) = []
    · rw [if_pos h]
      have : (!(pyStrip (rstripCRLF ln)).isEmpty) = false := by
        rw [h]
        rfl
      rw [this]
      simpa using ih
    · rw [if_neg h]
      have : (!(pyStrip (rstripCRLF ln)).isEmpty) = true := by
        cases he : pyStrip (rstripCRLF ln) with
        | nil => exact absurd he h
        | cons a b => rfl
      rw [this]
      simp only [List.map_cons, parseLine_raw, if_true]
      rw [ih]

theorem runSplitGo_congr (p q : Char → Bool) (l : List Char) :
    ∀ (mode : Bool) (acc : List Char), (∀ c ∈ l, p c = q c) →
      runSplitGo p mode l acc = runSplitGo q mode l acc := by
  induction l with
  | nil =>
    intro mode acc _
    cases mode <;> rfl
  | cons c rest ih =>
    intro mode acc h
    have hc := h c (List.mem_cons_self c rest)
    have hrest : ∀ x ∈ rest, p x = q x := fun x hx => h x (List.mem_cons_of_mem c hx)
    cases mode with
    | true =>
      show (if p c then runSplitGo p true rest acc else runSplitGo p false rest (c :: acc))
        = (if q c then runSplitGo q true rest acc else runSplitGo q false rest (c :: acc))
      rw [hc]
      by_cases hq : q c = true
      · rw [if_pos hq, if_pos hq]
        exact ih true acc hrest
      · rw [if_neg hq, if_neg hq]
        exact ih false (c :: acc) hrest
    | false =>
      have hcond : (p c && headSat p rest) = (q c && headSat q rest) := by
        rw [hc]
        cases rest with
        | nil => rfl
        | cons c2 w =>
          show (q c && p c2) = (q c && q c2)
          rw [hrest c2 (List.mem_cons_self c2 w)]
      show (if p c && headSat p rest then acc.reverse :: runSplitGo p true rest []
            else runSplitGo p false rest (c :: acc))
        = (if q c && headSat q rest then acc.reverse :: runSplitGo q true rest []
           else runSplitGo q false rest (c :: acc))
      rw [hcond]
      by_cases hq : (q c && headSat q rest) = true
      · rw [if_pos hq, if_pos hq, ih true [] hrest]
      · rw [if_neg hq, if_neg hq]
        exact ih false (c :: acc) hrest

theorem pySpace_eq_space (c : Char) (hb : isBreakB c = false) (ht : ¬ c = '\t') :
    isPySpace c = (c == ' ') := by
  by_cases hsp : c = ' '
  · subst hsp
    rfl
  · have h1 : (c == ' ') = false := by
      simp [hsp]
    have h2 : (c == '\t') = false := by
      simp [ht]
    have : isBreakB c = (c == '\r' || c == '\n' || c == '\x0b' || c == '\x0c') := rfl
    rw [this] at hb
    cases hr : (c == '\r') <;> cases hn : (c == '\n') <;>
      cases hv : (c == '\x0b') <;> cases hf : (c == '\x0c') <;>
      simp [hr, hn, hv, hf] at hb ⊢
    all_goals simp [isPySpace, h1, h2, hr, hn, hv, hf]

/-- Claim-side column rule for tab-free lines: split at runs of two or more
consecutive space characters and trim each column. -/
def splitSpaceRuns (ln : Str) : List Str :=
  (runSplit (fun c => c == ' ') ln).map pyStrip

/-- Claim C8: the parser makes exactly one row per non-blank line in input
order and never fails; a line containing a tab splits at tabs, a tab-free
line splits at runs of two or more spaces (the model's line splitter leaves
no terminator characters in a line, so its whitespace is spaces and tabs
only); columns map to id/name/type/distance with empty-string defaults and
extra columns dropped, and the two-column fallback re-shifts as described. -/
theorem parse_dscan_spec (text : Str) (ln raw : Str) :
    ((parse_dscan text).map Row.raw
      = ((pySplitlines text).map rstripCRLF).filter (fun l => !(pyStrip l).isEmpty)) ∧
    (ln ∈ pySplitlines text → rstripCRLF ln = ln) ∧
    (ln ∈ pySplitlines text → ln.contains '\t' = false →
      split_columns ln = splitSpaceRuns ln) ∧
    (raw.contains '\t' = true →
      split_columns raw = (splitOnChar '\t' raw).map pyStrip) ∧
    ((split_columns raw).getD 1 [] = [] → (split_columns raw).getD 2 [] = [] →
      2 ≤ (split_columns raw).length →
      parseLine raw = ⟨[], (split_columns raw).getD 0 [], (split_columns raw).getD 1 [],
        (split_columns raw).getD 2 [], raw⟩) ∧
    (¬ ((split_columns raw).getD 1 [] = [] ∧ (split_columns raw).getD 2 [] = [] ∧
        2 ≤ (split_columns raw).length) →
      parseLine raw = ⟨(split_columns raw).getD 0 [], (split_columns raw).getD 1 [],
        (split_columns raw).getD 2 [], (split_columns raw).getD 3 [], raw⟩) := by
  refine ⟨parse_dscan_rows text, ?_, ?_, ?_, ?_, ?_⟩
  · intro hmem
    exact rstripCRLF_of_no_break ln (pySplitlines_no_break text ln hmem)
  · intro hmem htab
    have hnb := pySplitlines_no_break text ln hmem
    have hnt : ∀ c ∈ ln, ¬ c = '\t' := by
      have h' : ¬ '\t' ∈ ln := by simpa using htab
      intro c hcm hct
      exact h' (hct ▸ hcm)
    unfold split_columns
    rw [if_neg (by rw [htab]; simp)]
    unfold splitSpaceRuns runSplit
    rw [runSplitGo_congr isPySpace (fun c => c == ' ') ln false []
      (fun c hcm => pySpace_eq_space c (hnb c hcm) (hnt c hcm))]
  · intro htab
    unfold split_columns
    rw [if_pos htab]
  · intro h1 h2 h3
    unfold parseLine
    rw [if_pos ⟨h1, h2, h3⟩]
  · intro hn
    unfold parseLine
    rw [if_neg hn]

theorem parse_dscan_spec_witness :
    ((("1  a  T").data ∈ pySplitlines (("1  a  T").data) ∧
      (("1  a  T").data).contains '\t' = false) ∧
      split_columns (("1  a  T").data) = splitSpaceRuns (("1  a  T").data)) ∧
    (parse_dscan (("1  a  T").data)).map Row.raw
      = ((pySplitlines (("1  a  T").data)).map rstripCRLF).filter
          (fun l => !(pyStrip l).isEmpty) :=
  ⟨⟨⟨by decide, by decide⟩,
    (parse_dscan_spec (("1  a  T").data) (("1  a  T").data) []).2.2.1
      (by decide) (by decide)⟩,
    (parse_dscan_spec (("1  a  T").data) (("1  a  T").data) []).1⟩

/-! ## Catalog lookup modes (claim C9) -/

theorem alistGet?_of_mem_keys (m : Catalog) (k : Str) (h : k ∈ m.map Prod.fst) :
    ∃ v, alistGet? m k = some v := by
  induction m with
  | nil => cases h
  | cons p rest ih =>
    by_cases hp : p.1 = k
    · exact ⟨p.2, by simp [alistGet?, hp]⟩
    · rcases List.mem_map.mp h with ⟨q, hq, hqk⟩
      rcases List.mem_cons.mp hq with hq | hq
      · exact absurd (hq ▸ hqk) hp
      · have : k ∈ rest.map Prod.fst := List.mem_map.mpr ⟨q, hq, hqk⟩
        rcases ih this with ⟨v, hv⟩
        exact ⟨v, by simp [alistGet?, hp, hv]⟩

theorem find?_desc_longest (p : Str → Bool) :
    ∀ (ks : List Str), List.Sorted lenGE ks → ∀ k, ks.find? p = some k →
      ∀ k' ∈ ks, k.length < k'.length → p k' = false := by
  intro ks
  induction ks with
  | nil =>
    intro _ k hf
    cases hf
  | cons x rest ih =>
    intro hs k hf k' hk' hlen
    by_cases hx : p x = true
    · have hk : k = x := by
        rw [List.find?_cons_of_pos _ hx] at hf
        exact (Option.some_inj.mp hf).symm
      subst hk
      rcases List.mem_cons.mp hk' with hk' | hk'
      · subst hk'
        exact absurd hlen (lt_irrefl _)
      · have := List.rel_of_sorted_cons hs k' hk'
        exact absurd hlen (by unfold lenGE at this; omega)
    · have hx' : p x = false := Bool.eq_false_iff.mpr hx
      rw [List.find?_cons_of_neg _ hx] at hf
      rcases List.mem_cons.mp hk' with hk' | hk'
      · subst hk'
        exact hx'
      · exact ih hs.of_cons k hf k' hk' hlen

/-- Claim C9: both lookup styles.  Exact mode (from src/main.py line 99):
lower-case the queried type, direct lookup, `"Unknown"` on a miss.
Substring mode (modelled from the spec, second variant not under src/):
scanning catalog keys by descending length, the result is the group of a
key contained in the lower-cased line such that no strictly longer key is
contained, and the result is `none` (not `"Unknown"`) exactly when no
catalog key occurs in the lower-cased line. -/
theorem lookup_modes_spec (cat : Catalog) (typ line : Str) :
    (∀ g, alistGet? cat (pyLower typ) = some g → lookup_exact cat typ = g) ∧
    (alistGet? cat (pyLower typ) = none → lookup_exact cat typ = unknownS) ∧
    (lookup_substring cat line = none ↔
      ∀ k ∈ cat.map Prod.fst, containsSub (pyLower line) k = false) ∧
    (∀ g, lookup_substring cat line = some g →
      ∃ k, k ∈ cat.map Prod.fst ∧ containsSub (pyLower line) k = true ∧
        alistGet? cat k = some g ∧
        ∀ k' ∈ cat.map Prod.fst, k.length < k'.length →
          containsSub (pyLower line) k' = false) := by
  have hsorted : List.Sorted lenGE (List.insertionSort lenGE (cat.map Prod.fst)) :=
    List.sorted_insertionSort lenGE (cat.map Prod.fst)
  refine ⟨?_, ?_, ?_, ?_⟩
  · intro g hg
    unfold lookup_exact alistGetD
    rw [hg]
    rfl
  · intro hg
    unfold lookup_exact alistGetD
    rw [hg]
    rfl
  · show ((List.insertionSort lenGE (cat.map Prod.fst)).find?
        (fun k => containsSub (pyLower line) k)).bind (alistGet? cat) = none ↔ _
    cases hf : (List.insertionSort lenGE (cat.map Prod.fst)).find?
        (fun k => containsSub (pyLower line) k) with
    | none =>
      simp only [Option.none_bind, true_iff]
      intro k hk
      have hk' : k ∈ List.insertionSort lenGE (cat.map Prod.fst) :=
        (List.mem_insertionSort lenGE).mpr hk
      have := List.find?_eq_none.mp hf k hk'
      exact Bool.eq_false_iff.mpr this
    | some k =>
      have hkmem : k ∈ cat.map Prod.fst :=
        (List.mem_insertionSort lenGE).mp (List.mem_of_find?_eq_some hf)
      rcases alistGet?_of_mem_keys cat k hkmem with ⟨v, hv⟩
      simp only [Option.some_bind, hv]
      constructor
      · intro hcontra
        cases hcontra
      · intro hall
        have := List.find?_some hf
        rw [hall k hkmem] at this
        cases this
  · intro g hg
    have hg2 : ((List.insertionSort lenGE (cat.map Prod.fst)).find?
        (fun k => containsSub (pyLower line) k)).bind (alistGet? cat) = some g := hg
    cases hf : (List.insertionSort lenGE (cat.map Prod.fst)).find?
        (fun k => containsSub (pyLower line) k) with
    | none =>
      rw [hf] at hg2
      simp only [Option.none_bind] at hg2
      cases hg2
    | some k =>
      rw [hf] at hg2
      simp only [Option.some_bind] at hg2
      have hkmem : k ∈ cat.map Prod.fst :=
        (List.mem_insertionSort lenGE).mp (List.mem_of_find?_eq_some hf)
      refine ⟨k, hkmem, List.find?_some hf, hg2, ?_⟩
      intro k' hk' hlen
      exact find?_desc_longest _ _ hsorted k hf k'
        ((List.mem_insertionSort lenGE).mpr hk') hlen

theorem lookup_modes_spec_witness :
    (alistGet? [((("rifter").data), ("Frigate").data), ((("rif").data), ("X").data)]
        (pyLower (("Rifter").data)) = some (("Frigate").data) ∧
      lookup_exact [((("rifter").data), ("Frigate").data), ((("rif").data), ("X").data)]
        (("Rifter").data) = ("Frigate").data) ∧
    (lookup_substring [((("rifter").data), ("Frigate").data), ((("rif").data), ("X").data)]
        (("a Rifter b").data) = some (("Frigate").data) ∧
      ∃ k, k ∈ ([((("rifter").data), ("Frigate").data),
            ((("rif").data), ("X").data)] : Catalog).map Prod.fst ∧
        containsSub (pyLower (("a Rifter b").data)) k = true ∧
        alistGet? [((("rifter").data), ("Frigate").data), ((("rif").data), ("X").data)] k
          = some (("Frigate").data) ∧
        ∀ k' ∈ ([((("rifter").data), ("Frigate").data),
            ((("rif").data), ("X").data)] : Catalog).map Prod.fst,
          k.length < k'.length →
          containsSub (pyLower (("a Rifter b").data)) k' = false) :=
  ⟨⟨by decide,
    (lookup_modes_spec [((("rifter").data), ("Frigate").data), ((("rif").data), ("X").data)]
        (("Rifter").data) []).1 (("Frigate").data) (by decide)⟩,
    by decide,
    (lookup_modes_spec [((("rifter").data), ("Frigate").data), ((("rif").data), ("X").data)]
        [] (("a Rifter b").data)).2.2.2 (("Frigate").data) (by decide)⟩

end DScanWatch
